import Mathlib

-- Verification of the binary plist component of remotex-lab/xPlist.
-- The embedding follows src/components/binary.component.ts together with the
-- primitive codec module src/structs/binary.struct.ts (isFloatPrecision,
-- encodeTypeInfoStruct, encodeInt, decodeInt, encodeFloatStruct,
-- encodeDateStruct, decodeDateStruct).  JavaScript numbers are modelled as
-- exact rationals; the IEEE-754 float operations of the code (Float32Array
-- assignment, writeFloatBE/writeDoubleBE) are embedded through an executable
-- round-to-nearest-even on rationals.

set_option maxRecDepth 10000

/-- Error message of the TypeError thrown by calculateIntSize (unreachable in the
integer embedding, kept for completeness). -/
def msgNotInteger : String := "The input must be a valid integer or BigInt."

/-- Error message of the RangeError thrown by calculateIntSize. -/
def msgInt64Range : String := "The input exceeds the range of an 8-byte integer (Int64)."

/-- Error message of the final throw in encodeType. -/
def msgUnsupported : String := "Unsupported type"

/-- Error message of the RangeError thrown by encodeTypeInfoStruct in
src/structs/binary.struct.ts. -/
def msgTypeInfoRange : String := "Both type and info must be in the range 0-15."

/-- Error message of the unsupported-size throw shared by encodeInt and
decodeInt in src/structs/binary.struct.ts. -/
def msgUnsupportedIntSize : String := "Unsupported size. Supported sizes are 1, 2, 4, or 8 bytes."

/-- Stands for the ERR_OUT_OF_RANGE RangeError Node raises when a
Buffer.writeInt*BE value lies outside the signed range of the width (the
runtime formats the bounds into the text; the exact wording is abstracted). -/
def msgIntOutOfRange : String := "The value of value is out of range."

/-- Stands for the ERR_OUT_OF_RANGE RangeError Node raises when a
Buffer.readInt*BE / readDoubleBE access runs past the end of the buffer. -/
def msgReadOutOfRange : String := "Attempt to access memory outside buffer bounds."

/-- Error message of the unsupported-size throw in encodeFloatStruct and
decodeFloatStruct in src/structs/binary.struct.ts (the runtime interpolates
the size into the template). -/
def msgUnsupportedFloatSize (size : ℕ) : String :=
  "Unsupported float size: " ++ toString size

/-- Embedding of calculateIntSize from src/components/binary.component.ts.
The JS function accepts number or bigint; the integer domain is modelled as Z,
so the initial Number.isInteger TypeError branch is unreachable here.  The body
takes the absolute value and compares it against 0x7FFFFFFFFFFFFFFF, 0x7F,
0x7FFF and 0x7FFFFFFF exactly as the source does. -/
def calculateIntSize (value : ℤ) : Except String ℕ :=
  let number := value
  let absValue := if number < 0 then -number else number
  if 0x7FFFFFFFFFFFFFFF < absValue then
    Except.error msgInt64Range
  else if absValue ≤ 0x7F then Except.ok 1
  else if absValue ≤ 0x7FFF then Except.ok 2
  else if absValue ≤ 0x7FFFFFFF then Except.ok 4
  else Except.ok 8

/-- Embedding of the expression Math.round(Math.sqrt(n)) used by encodeType to
turn a byte width into an info nibble.  In exact arithmetic
round(sqrt(n)) = m iff (2m-1)^2 <= 4n < (2m+1)^2, counted here; Math.sqrt is
correctly rounded, so the double computation agrees on every input reachable
from encodeType (n = 0, 1, 3, 7). -/
def jsRoundSqrt (n : ℕ) : ℕ :=
  (List.range (n + 1)).countP fun m => (2 * m + 1) ^ 2 ≤ 4 * n

/-- Big-endian base-256 digits of n, most significant first, fixed length. -/
def natToBytesBE (n : ℕ) : ℕ → List ℕ
  | 0 => []
  | k + 1 => (n / 256 ^ k % 256) :: natToBytesBE n k

/-- Value of a big-endian byte list. -/
def beBytesToNat (l : List ℕ) : ℕ :=
  l.foldl (fun a b => 256 * a + b) 0

/-- Semantics of Buffer.writeInt(8|16BE|32BE|BigInt64BE): Node throws an
ERR_OUT_OF_RANGE RangeError when the value falls outside the signed range of
the width, and otherwise stores the big-endian two's-complement bytes, which
are the base-256 digits of the value reduced modulo 2^(8*w). -/
def writeSignedBE (value : ℤ) (w : ℕ) : Except String (List ℕ) :=
  if -(2 ^ (8 * w - 1)) ≤ value ∧ value < 2 ^ (8 * w - 1) then
    Except.ok (natToBytesBE ((value % ((2 : ℤ) ^ (8 * w))).toNat) w)
  else Except.error msgIntOutOfRange

/-- Semantics of Buffer.readInt(8|16BE|32BE|BigInt64BE) at offset 0: Node
throws when the buffer is shorter than the width, and otherwise reinterprets
the big-endian unsigned value into the signed two's-complement range. -/
def readSignedBE (bytes : List ℕ) (w : ℕ) : Except String ℤ :=
  if w ≤ bytes.length then
    Except.ok
      (if 2 ^ (8 * w - 1) ≤ beBytesToNat (bytes.take w)
       then (beBytesToNat (bytes.take w) : ℤ) - 2 ^ (8 * w)
       else (beBytesToNat (bytes.take w) : ℤ))
  else Except.error msgReadOutOfRange

/-- Embedding of encodeInt from src/structs/binary.struct.ts: allocates a
buffer of the given size and dispatches on size 1, 2, 4, 8 to the
corresponding big-endian signed write, throwing on any other size. -/
def encodeInt (value : ℤ) (size : ℕ) : Except String (List ℕ) :=
  if size = 1 then writeSignedBE value 1
  else if size = 2 then writeSignedBE value 2
  else if size = 4 then writeSignedBE value 4
  else if size = 8 then writeSignedBE value 8
  else Except.error msgUnsupportedIntSize

/-- Embedding of decodeInt from src/structs/binary.struct.ts: dispatches on
size 1, 2, 4, 8 to the corresponding big-endian signed read at offset 0,
throwing on any other size. -/
def decodeInt (bytes : List ℕ) (size : ℕ) : Except String ℤ :=
  if size = 1 then readSignedBE bytes 1
  else if size = 2 then readSignedBE bytes 2
  else if size = 4 then readSignedBE bytes 4
  else if size = 8 then readSignedBE bytes 8
  else Except.error msgUnsupportedIntSize

/-- Embedding of encodeTypeInfoStruct from src/structs/binary.struct.ts:
RangeError when either 4-bit field is out of 0..15, otherwise the byte
(type <<< 4) ||| info. -/
def encodeTypeInfoStruct (type info : ℤ) : Except String ℕ :=
  if type < 0 ∨ 15 < type ∨ info < 0 ∨ 15 < info then Except.error msgTypeInfoRange
  else Except.ok (type.toNat <<< 4 ||| info.toNat)

/-- IEEE-754 bit fields shared by the binary32 and binary64 layouts: a sign,
a biased-exponent field and a trailing-significand field. -/
structure FloatBits where
  sign : Bool
  ebits : ℕ
  mbits : ℕ
deriving DecidableEq, Repr

/-- Well-formed finite float pattern for significand width p and bias:
the exponent field stays below the infinity/NaN field (at most 2*bias) and
the significand field fits in p bits. -/
def FloatBits.WF (p bias : ℕ) (f : FloatBits) : Prop :=
  f.ebits ≤ 2 * bias ∧ f.mbits < 2 ^ p

instance (p bias : ℕ) (f : FloatBits) : Decidable (FloatBits.WF p bias f) :=
  inferInstanceAs (Decidable (f.ebits ≤ 2 * bias ∧ f.mbits < 2 ^ p))

/-- Magnitude of a finite float pattern with significand width p and exponent
bias: subnormal when the exponent field is zero, normal otherwise. -/
def fbitsMag (p bias : ℕ) (f : FloatBits) : ℚ :=
  if f.ebits = 0 then (f.mbits : ℚ) * (2 : ℚ) ^ (1 - (bias : ℤ) - (p : ℤ))
  else ((2 ^ p + f.mbits : ℕ) : ℚ) * (2 : ℚ) ^ ((f.ebits : ℤ) - (bias : ℤ) - (p : ℤ))

/-- Exact rational value of a finite float pattern with significand width p
and exponent bias. -/
def fbitsVal (p bias : ℕ) (f : FloatBits) : ℚ :=
  if f.sign then -fbitsMag p bias f else fbitsMag p bias f

/-- The float pattern whose value is exactly q, when q is representable with
significand width p and exponent bias; none otherwise. -/
def mkFloatBits (p bias : ℕ) (q : ℚ) : Option FloatBits :=
  if q = 0 then some ⟨false, 0, 0⟩
  else
    let a : ℚ := |q|
    let e : ℤ := Int.log 2 a
    if e < 1 - (bias : ℤ) then
      let m : ℚ := a * (2 : ℚ) ^ ((bias : ℤ) + (p : ℤ) - 1)
      if m.den = 1 ∧ m.num < 2 ^ p then some ⟨decide (q < 0), 0, m.num.toNat⟩ else none
    else if e ≤ (bias : ℤ) then
      let m : ℚ := a * (2 : ℚ) ^ ((p : ℤ) - e)
      if m.den = 1 then some ⟨decide (q < 0), (e + (bias : ℤ)).toNat, m.num.toNat - 2 ^ p⟩
      else none
    else none

/-- Round-half-to-even of a rational to an integer, the tie rule IEEE-754
uses. -/
def roundHalfEven (x : ℚ) : ℤ :=
  if x - ⌊x⌋ < 1 / 2 then ⌊x⌋
  else if 1 / 2 < x - ⌊x⌋ then ⌊x⌋ + 1
  else if ⌊x⌋ % 2 = 0 then ⌊x⌋ else ⌊x⌋ + 1

/-- IEEE-754 round-to-nearest-even of a rational to a float pattern with
significand width p and exponent bias: the operation performed by a
Float32Array store or Buffer.writeFloatBE (p = 23, bias = 127) and by
binary64 arithmetic or Buffer.writeDoubleBE (p = 52, bias = 1023).  Overflow
yields the infinity pattern (exponent field 2*bias+1). -/
def roundFloatBits (p bias : ℕ) (q : ℚ) : FloatBits :=
  if q = 0 then ⟨false, 0, 0⟩
  else
    let a : ℚ := |q|
    let e : ℤ := Int.log 2 a
    if e < 1 - (bias : ℤ) then
      let m : ℤ := roundHalfEven (a * (2 : ℚ) ^ ((bias : ℤ) + (p : ℤ) - 1))
      if m < 2 ^ p then ⟨decide (q < 0), 0, m.toNat⟩
      else ⟨decide (q < 0), 1, 0⟩
    else if e ≤ (bias : ℤ) then
      let m : ℤ := roundHalfEven (a * (2 : ℚ) ^ ((p : ℤ) - e))
      if m < 2 ^ (p + 1) then ⟨decide (q < 0), (e + (bias : ℤ)).toNat, m.toNat - 2 ^ p⟩
      else if e + 1 ≤ (bias : ℤ) then ⟨decide (q < 0), (e + 1 + (bias : ℤ)).toNat, 0⟩
      else ⟨decide (q < 0), 2 * bias + 1, 0⟩
    else ⟨decide (q < 0), 2 * bias + 1, 0⟩

/-- Embedding of isFloatPrecision from src/structs/binary.struct.ts: the code
stores the value into a Float32Array (rounding it to binary32) and compares
the result with the original value.  The comparison fails on overflow to
infinity; NaN inputs (which also fail) have no rational counterpart and are
outside the model. -/
def isFloatPrecision (q : ℚ) : Bool :=
  if (roundFloatBits 23 127 q).ebits ≤ 2 * 127
  then decide (fbitsVal 23 127 (roundFloatBits 23 127 q) = q)
  else false

/-- A finite JavaScript number: the exact value of some finite binary64. -/
def IsJSNumber (q : ℚ) : Prop :=
  ∃ f : FloatBits, FloatBits.WF 52 1023 f ∧ fbitsVal 52 1023 f = q

/-- 32-bit word of a binary32 pattern. -/
def f32word (f : FloatBits) : ℕ :=
  (cond f.sign 1 0) * 2 ^ 31 + f.ebits * 2 ^ 23 + f.mbits

/-- 64-bit word of a binary64 pattern. -/
def f64word (f : FloatBits) : ℕ :=
  (cond f.sign 1 0) * 2 ^ 63 + f.ebits * 2 ^ 52 + f.mbits

/-- Embedding of encodeFloatStruct from src/structs/binary.struct.ts: size 4
uses Buffer.writeFloatBE, which rounds the value to binary32 and stores its
big-endian bytes; size 8 uses Buffer.writeDoubleBE, which stores the binary64
bytes (the identity rounding on actual JavaScript numbers); any other size
throws. -/
def encodeFloatStruct (value : ℚ) (size : ℕ) : Except String (List ℕ) :=
  if size = 4 then Except.ok (natToBytesBE (f32word (roundFloatBits 23 127 value)) 4)
  else if size = 8 then Except.ok (natToBytesBE (f64word (roundFloatBits 52 1023 value)) 8)
  else Except.error (msgUnsupportedFloatSize size)

/-- REFERENCE_DATE of src/structs/binary.struct.ts: Date.UTC(2001, 0, 1),
the plist epoch 2001-01-01T00:00:00Z in Unix milliseconds. -/
def epochMs : ℤ := 978307200000

/-- Embedding of encodeDateStruct from src/structs/binary.struct.ts: a 9-byte
buffer whose first byte is encodeTypeInfoStruct(0x3, 0x3) = 0x33 and whose
remaining 8 bytes are writeDoubleBE of deltaTime / 1000, the binary64 nearest
to the exact delta in seconds (deltaTime = t - REFERENCE_DATE is exact in
binary64 for the JavaScript date range). -/
def encodeDateStruct (t : ℤ) : List ℕ :=
  0x33 :: natToBytesBE (f64word (roundFloatBits 52 1023 (((t : ℚ) - (epochMs : ℚ)) / 1000))) 8

/-- The JavaScript values distinguished by the branches of encodeType:
null, booleans, numbers (finite binary64 values, as rationals), Date instants
(integer Unix milliseconds), Buffers, strings (UTF-16 code units), arrays,
Sets, plain objects, and a representative of the remaining runtime values
(undefined, functions, symbols, bigints) that reach the final else branch. -/
inductive JSValue where
  | null : JSValue
  | bool : Bool → JSValue
  | num : ℚ → JSValue
  | date : ℤ → JSValue
  | buffer : List ℕ → JSValue
  | str : List ℕ → JSValue
  | arr : List JSValue → JSValue
  | set : List JSValue → JSValue
  | obj : List (String × JSValue) → JSValue
  | other : JSValue

/-- Embedding of encodeType from src/components/binary.component.ts.  Branches
mirror the source order: null, false, true, number (integer then float), Date,
Buffer, ASCII string, other string, Array, Set, object, final throw.  The
Buffer, string, Array, Set and object branches all return Buffer.alloc(0). -/
def encodeType (data : JSValue) : Except String (List ℕ) :=
  match data with
  | .null => Except.ok [0x00]
  | .bool false => Except.ok [0x08]
  | .bool true => Except.ok [0x09]
  | .num q =>
    if q.den = 1 then
      match calculateIntSize q.num with
      | Except.error e => Except.error e
      | Except.ok size =>
        match encodeTypeInfoStruct 0x1 (jsRoundSqrt (size - 1) : ℕ) with
        | Except.error e => Except.error e
        | Except.ok type =>
          match encodeInt q.num size with
          | Except.error e => Except.error e
          | Except.ok encode => Except.ok (type :: encode)
    else
      let size : ℕ := if isFloatPrecision q then 4 else 8
      match encodeTypeInfoStruct 0x2 (jsRoundSqrt (size - 1) : ℕ) with
      | Except.error e => Except.error e
      | Except.ok type =>
        match encodeFloatStruct q size with
        | Except.error e => Except.error e
        | Except.ok encode => Except.ok (type :: encode)
  | .date t => Except.ok (encodeDateStruct t)
  | .buffer _ => Except.ok []
  | .str s => if s.all (fun c => c ≤ 0x7F) then Except.ok [] else Except.ok []
  | .arr _ => Except.ok []
  | .set _ => Except.ok []
  | .obj _ => Except.ok []
  | .other => Except.error msgUnsupported

/-- Embedding of encodeBinary from src/components/binary.component.ts: the
source logs its argument and returns Buffer.alloc(0). -/
def encodeBinary (_ : JSValue) : List ℕ := []

/-- The 8 header bytes "bplist00" required by the claimed file layout. -/
def bplistMagic : List ℕ := [0x62, 0x70, 0x6C, 0x69, 0x73, 0x74, 0x30, 0x30]

/-- The binary64 value denoted by the JavaScript literal 0.1: the double
nearest one tenth. -/
def jsPointOne : ℚ := (3602879701896397 : ℚ) / 2 ^ 55

deriving instance DecidableEq for Except

-- General facts about the byte-level helpers.

theorem natToBytesBE_length (n k : ℕ) : (natToBytesBE n k).length = k := by
  induction k with
  | zero => rfl
  | succ k ih => simpa [natToBytesBE] using ih

theorem digit_split (n A : ℕ) (hA : 0 < A) :
    n % (256 * A) = n / A % 256 * A + n % A := by
  have hr : n % A < A := Nat.mod_lt _ hA
  have hd : n / A % 256 < 256 := Nat.mod_lt _ (by norm_num)
  have hsplit : n = (n / A % 256 * A + n % A) + (n / A / 256) * (256 * A) := by
    have h1 : n / A = n / A / 256 * 256 + n / A % 256 := by omega
    have h2 : n = n / A * A + n % A := by
      rw [mul_comm]
      exact (Nat.div_add_mod n A).symm
    calc n = n / A * A + n % A := h2
    _ = (n / A / 256 * 256 + n / A % 256) * A + n % A := by rw [← h1]
    _ = (n / A % 256 * A + n % A) + (n / A / 256) * (256 * A) := by ring
  calc n % (256 * A) = ((n / A % 256 * A + n % A) + (n / A / 256) * (256 * A)) % (256 * A) := by
        rw [← hsplit]
  _ = (n / A % 256 * A + n % A) % (256 * A) := Nat.add_mul_mod_self_right _ _ _
  _ = n / A % 256 * A + n % A := by
        apply Nat.mod_eq_of_lt
        have : n / A % 256 * A ≤ 255 * A := Nat.mul_le_mul_right _ (by omega)
        nlinarith

theorem foldl_natToBytesBE (n : ℕ) :
    ∀ (k a : ℕ), List.foldl (fun x b => 256 * x + b) a (natToBytesBE n k)
      = a * 256 ^ k + n % 256 ^ k := by
  intro k
  induction k with
  | zero => intro a; simp [natToBytesBE, Nat.mod_one]
  | succ k ih =>
    intro a
    have hpow : (256 : ℕ) ^ (k + 1) = 256 * 256 ^ k := by ring
    calc List.foldl (fun x b => 256 * x + b) a (natToBytesBE n (k + 1))
        = List.foldl (fun x b => 256 * x + b) (256 * a + n / 256 ^ k % 256) (natToBytesBE n k) := by
          simp [natToBytesBE]
    _ = (256 * a + n / 256 ^ k % 256) * 256 ^ k + n % 256 ^ k := ih _
    _ = a * 256 ^ (k + 1) + (n / 256 ^ k % 256 * 256 ^ k + n % 256 ^ k) := by ring
    _ = a * 256 ^ (k + 1) + n % 256 ^ (k + 1) := by
          rw [hpow, digit_split n (256 ^ k) (by positivity)]

theorem beBytesToNat_natToBytesBE (n k : ℕ) :
    beBytesToNat (natToBytesBE n k) = n % 256 ^ k := by
  simpa [beBytesToNat] using foldl_natToBytesBE n k 0

theorem bit_or_as_add (a b : ℕ) (ha : a ≤ 15) (hb : b ≤ 15) :
    a <<< 4 ||| b = 16 * a + b := by
  interval_cases a <;> interval_cases b <;> rfl

theorem calculateIntSize_cases (z : ℤ) :
    calculateIntSize z = Except.error msgInt64Range
    ∨ ∃ s, calculateIntSize z = Except.ok s ∧ (s = 1 ∨ s = 2 ∨ s = 4 ∨ s = 8)
      ∧ -(2 ^ (8 * s - 1)) ≤ z ∧ z < 2 ^ (8 * s - 1) := by
  simp only [calculateIntSize]
  split_ifs <;>
    first
      | (left; rfl)
      | (right; exact ⟨1, rfl, by norm_num, by omega, by omega⟩)
      | (right; exact ⟨2, rfl, by norm_num, by omega, by omega⟩)
      | (right; exact ⟨4, rfl, by norm_num, by omega, by omega⟩)
      | (right; exact ⟨8, rfl, by norm_num, by omega, by omega⟩)

/-- C6: for every width w in 1, 2, 4, 8 and every integer v representable in w
bytes of two's-complement, encodeInt succeeds, decodeInt mirrors it back to v,
the encoding is w bytes long, and its big-endian value is the two's-complement
residue of v modulo 2^(8w). -/
theorem decodeInt_encodeInt (w : ℕ) (v : ℤ)
    (hw : w = 1 ∨ w = 2 ∨ w = 4 ∨ w = 8)
    (hlo : -(2 ^ (8 * w - 1)) ≤ v) (hhi : v < 2 ^ (8 * w - 1)) :
    ∃ bytes, encodeInt v w = Except.ok bytes ∧ decodeInt bytes w = Except.ok v
      ∧ bytes.length = w
      ∧ beBytesToNat bytes = (v % ((2 : ℤ) ^ (8 * w))).toNat := by
  have h256 : ((2 : ℤ) ^ (8 * w)) = ((256 ^ w : ℕ) : ℤ) := by
    push_cast
    rw [pow_mul]
    norm_num
  have hnn : 0 ≤ v % ((2 : ℤ) ^ (8 * w)) := Int.emod_nonneg v (by positivity)
  have hlt : v % ((2 : ℤ) ^ (8 * w)) < ((256 ^ w : ℕ) : ℤ) :=
    h256 ▸ Int.emod_lt_of_pos v (by positivity)
  have hltn : (v % ((2 : ℤ) ^ (8 * w))).toNat < 256 ^ w := by omega
  have hkey : beBytesToNat (natToBytesBE (v % ((2 : ℤ) ^ (8 * w))).toNat w)
      = (v % ((2 : ℤ) ^ (8 * w))).toNat := by
    rw [beBytesToNat_natToBytesBE, Nat.mod_eq_of_lt hltn]
  have hlen : (natToBytesBE (v % ((2 : ℤ) ^ (8 * w))).toNat w).length = w :=
    natToBytesBE_length _ _
  have htake : (natToBytesBE (v % ((2 : ℤ) ^ (8 * w))).toNat w).take w
      = natToBytesBE (v % ((2 : ℤ) ^ (8 * w))).toNat w :=
    List.take_of_length_le (le_of_eq hlen)
  refine ⟨natToBytesBE (v % ((2 : ℤ) ^ (8 * w))).toNat w, ?_, ?_, hlen, hkey⟩
  · have henc : encodeInt v w = writeSignedBE v w := by
      rcases hw with rfl | rfl | rfl | rfl <;> rfl
    rw [henc]
    unfold writeSignedBE
    rw [if_pos ⟨hlo, hhi⟩]
  · have hdec : decodeInt (natToBytesBE (v % ((2 : ℤ) ^ (8 * w))).toNat w) w
        = readSignedBE (natToBytesBE (v % ((2 : ℤ) ^ (8 * w))).toNat w) w := by
      rcases hw with rfl | rfl | rfl | rfl <;> rfl
    rw [hdec]
    unfold readSignedBE
    rw [if_pos (le_of_eq hlen.symm), htake, hkey]
    rcases hw with rfl | rfl | rfl | rfl <;>
      · norm_num at hlo hhi hnn hlt hltn ⊢
        split_ifs <;> omega

/-- C6 witness: the one-byte round trip of -2 through the integer codec,
together with its length and its two's-complement byte value. -/
theorem decodeInt_encodeInt_witness :
    ∃ bytes, encodeInt (-2) 1 = Except.ok bytes ∧ decodeInt bytes 1 = Except.ok (-2)
      ∧ bytes.length = 1
      ∧ beBytesToNat bytes = ((-2 : ℤ) % ((2 : ℤ) ^ (8 * 1))).toNat :=
  decodeInt_encodeInt 1 (-2) (Or.inl rfl) (by norm_num) (by norm_num)

/-- C2: encodeBinary in the source is an unfinished stub: it returns the empty
buffer for every input, so its output never carries the 8-byte bplist00
header, the encoded objects, the offset table or the 32-byte trailer. -/
theorem encodeBinary_is_empty_stub :
    ∀ v : JSValue, encodeBinary v = []
      ∧ ¬ ∃ rest, encodeBinary v = bplistMagic ++ rest := by
  intro v
  refine ⟨rfl, ?_⟩
  rintro ⟨rest, h⟩
  simp [encodeBinary, bplistMagic] at h

/-- C1: no decoder whatsoever is a left inverse of the source encodeBinary,
because encodeBinary maps every value to the same empty buffer; in particular
the claimed round trip decodeBinary (encodeBinary v) = v is impossible. -/
theorem no_decoder_inverts_encodeBinary :
    ¬ ∃ decodeBinary : List ℕ → JSValue,
        ∀ v : JSValue, decodeBinary (encodeBinary v) = v := by
  rintro ⟨d, h⟩
  have h1 : d [] = JSValue.bool true := h (JSValue.bool true)
  have h2 : d [] = JSValue.bool false := h (JSValue.bool false)
  have : JSValue.bool true = JSValue.bool false := h1.symm.trans h2
  simp at this

/-- C4: calculateIntSize rejects -2^63 with the Int64 RangeError although that
value lies inside the 64-bit signed range, and returns width 2 for -128
although one two's-complement byte suffices, as the repository's own integer
codec confirms: encodeInt/decodeInt round-trip -128 through a single byte. -/
theorem calculateIntSize_negative_boundary_bug :
    calculateIntSize (-(2 ^ 63)) = Except.error msgInt64Range
    ∧ calculateIntSize (-128) = Except.ok 2
    ∧ encodeInt (-128) 1 = Except.ok [128]
    ∧ decodeInt [128] 1 = Except.ok (-128) := by
  refine ⟨by decide, by decide, by decide, by decide⟩

/-- C9: the positive width boundaries of calculateIntSize: 127 needs 1 byte,
128 and 32767 need 2 bytes, 32768 needs 4 bytes. -/
theorem calculateIntSize_width_boundaries :
    calculateIntSize 127 = Except.ok 1 ∧ calculateIntSize 128 = Except.ok 2
    ∧ calculateIntSize 32767 = Except.ok 2 ∧ calculateIntSize 32768 = Except.ok 4 := by
  decide

/-- C8: encodeTypeInfoStruct fails with its RangeError exactly when one of the
two fields lies outside 0..15, and otherwise packs the byte
(type <<< 4) ||| info, whose value is 16 * type + info. -/
theorem encodeTypeInfoStruct_contract (type info : ℤ) :
    ((∃ e, encodeTypeInfoStruct type info = Except.error e)
      ↔ type < 0 ∨ 15 < type ∨ info < 0 ∨ 15 < info)
    ∧ (0 ≤ type → type ≤ 15 → 0 ≤ info → info ≤ 15 →
        encodeTypeInfoStruct type info = Except.ok (16 * type.toNat + info.toNat)) := by
  constructor
  · unfold encodeTypeInfoStruct
    split_ifs with h
    · simp [h]
    · simp [h]
  · intro h1 h2 h3 h4
    unfold encodeTypeInfoStruct
    rw [if_neg (by omega), bit_or_as_add _ _ (by omega) (by omega)]

/-- C8 witness: packing the in-range pair (5, 3) yields the byte 0x53 = 83. -/
theorem encodeTypeInfoStruct_contract_witness :
    encodeTypeInfoStruct 5 3 = Except.ok 83 := by
  have h := (encodeTypeInfoStruct_contract 5 3).2 (by norm_num) (by norm_num)
    (by norm_num) (by norm_num)
  simpa using h

/-- C10: every Buffer, string, Array, Set and plain-object input makes
encodeType return the zero-length buffer rather than an encoding or an error,
and the Unsupported type error occurs exactly for inputs matching none of the
recognized branches. -/
theorem encodeType_composites_empty :
    (∀ b, encodeType (JSValue.buffer b) = Except.ok [])
    ∧ (∀ s, encodeType (JSValue.str s) = Except.ok [])
    ∧ (∀ l, encodeType (JSValue.arr l) = Except.ok [])
    ∧ (∀ l, encodeType (JSValue.set l) = Except.ok [])
    ∧ (∀ kv, encodeType (JSValue.obj kv) = Except.ok [])
    ∧ (∀ v, encodeType v = Except.error msgUnsupported ↔ v = JSValue.other) := by
  have hstr : ∀ s, encodeType (JSValue.str s) = Except.ok [] := by
    intro s
    simp only [encodeType]
    split_ifs <;> rfl
  refine ⟨fun _ => rfl, hstr, fun _ => rfl, fun _ => rfl, fun _ => rfl, fun v => ?_⟩
  constructor
  · intro h
    cases v with
    | null => simp [encodeType] at h
    | bool b => cases b <;> simp [encodeType] at h
    | date t => simp [encodeType] at h
    | buffer b => simp [encodeType] at h
    | str s => rw [hstr] at h; simp at h
    | arr l => simp [encodeType] at h
    | set l => simp [encodeType] at h
    | obj kv => simp [encodeType] at h
    | other => rfl
    | num q =>
      exfalso
      by_cases hd : q.den = 1
      · rcases calculateIntSize_cases q.num with hc | ⟨s, hc, hs, hblo, hbhi⟩
        · simp [encodeType, hd, hc, msgInt64Range, msgUnsupported] at h
        · obtain ⟨t, ht⟩ :
              ∃ t, encodeTypeInfoStruct 0x1 ((jsRoundSqrt (s - 1) : ℕ) : ℤ) = Except.ok t := by
            rcases hs with rfl | rfl | rfl | rfl
            · exact ⟨16, by decide⟩
            · exact ⟨17, by decide⟩
            · exact ⟨18, by decide⟩
            · exact ⟨19, by decide⟩
          have henc : encodeInt q.num s
              = Except.ok (natToBytesBE ((q.num % ((2 : ℤ) ^ (8 * s))).toNat) s) := by
            have hes : encodeInt q.num s = writeSignedBE q.num s := by
              rcases hs with rfl | rfl | rfl | rfl <;> rfl
            rw [hes]
            unfold writeSignedBE
            rw [if_pos ⟨hblo, hbhi⟩]
          simp [encodeType, hd, hc, ht, henc] at h
      · cases hfp : isFloatPrecision q with
        | false =>
          have ht : encodeTypeInfoStruct 0x2 ((jsRoundSqrt (8 - 1) : ℕ) : ℤ) = Except.ok 35 := by
            decide
          have hfe : encodeFloatStruct q 8
              = Except.ok (natToBytesBE (f64word (roundFloatBits 52 1023 q)) 8) := by
            simp [encodeFloatStruct]
          simp [encodeType, hd, hfp, ht, hfe] at h
        | true =>
          have ht : encodeTypeInfoStruct 0x2 ((jsRoundSqrt (4 - 1) : ℕ) : ℤ) = Except.ok 34 := by
            decide
          have hfe : encodeFloatStruct q 4
              = Except.ok (natToBytesBE (f32word (roundFloatBits 23 127 q)) 4) := by
            simp [encodeFloatStruct]
          simp [encodeType, hd, hfp, ht, hfe] at h
  · rintro rfl
    rfl

-- Helper facts for the IEEE-754 layer.

theorem two_zpow_pos (z : ℤ) : (0 : ℚ) < 2 ^ z := zpow_pos (by norm_num) z

theorem two_zpow_mul (x y : ℤ) : (2 : ℚ) ^ x * (2 : ℚ) ^ y = 2 ^ (x + y) :=
  (zpow_add₀ (by norm_num) x y).symm

theorem two_zpow_natCast (n : ℕ) : (2 : ℚ) ^ ((n : ℕ) : ℤ) = ((2 ^ n : ℕ) : ℚ) := by
  rw [zpow_natCast]
  push_cast
  ring

theorem intLog_two_eq (a : ℚ) (z : ℤ) (h1 : (2 : ℚ) ^ z ≤ a) (h2 : a < 2 ^ (z + 1)) :
    Int.log 2 a = z := by
  have ha : 0 < a := lt_of_lt_of_le (two_zpow_pos z) h1
  have hle : z ≤ Int.log 2 a := by
    rw [← Int.zpow_le_iff_le_log one_lt_two ha]
    exact_mod_cast h1
  have hlt : Int.log 2 a < z + 1 := by
    rw [← Int.lt_zpow_iff_log_lt one_lt_two ha]
    exact_mod_cast h2
  omega

theorem intLog_two_lt (a : ℚ) (z : ℤ) (ha : 0 < a) (h : a < 2 ^ z) : Int.log 2 a < z := by
  rw [← Int.lt_zpow_iff_log_lt one_lt_two ha]
  exact_mod_cast h

theorem intLog_two_le (a : ℚ) (z : ℤ) (ha : 0 < a) (h : (2 : ℚ) ^ z ≤ a) :
    z ≤ Int.log 2 a := by
  rw [← Int.zpow_le_iff_le_log one_lt_two ha]
  exact_mod_cast h

theorem fbitsMag_nonneg (p bias : ℕ) (f : FloatBits) : 0 ≤ fbitsMag p bias f := by
  unfold fbitsMag
  split_ifs <;> positivity

theorem abs_fbitsVal (p bias : ℕ) (f : FloatBits) :
    |fbitsVal p bias f| = fbitsMag p bias f := by
  unfold fbitsVal
  cases hs : f.sign <;>
    simp [abs_of_nonneg (fbitsMag_nonneg p bias f), abs_neg]

theorem signed_abs (q : ℚ) : (if decide (q < 0) = true then -|q| else |q|) = q := by
  split_ifs with h
  · simp only [decide_eq_true_eq] at h
    rw [abs_of_neg h]
    ring
  · simp only [decide_eq_true_eq, not_lt] at h
    exact abs_of_nonneg h

theorem rat_den_one_cast (m : ℚ) (hden : m.den = 1) (hnn : 0 ≤ m.num) :
    ((m.num.toNat : ℕ) : ℚ) = m := by
  have h1 : ((m.num.toNat : ℕ) : ℤ) = m.num := Int.toNat_of_nonneg hnn
  have h2 : ((m.num : ℤ) : ℚ) = m := by
    conv_rhs => rw [← Rat.num_div_den m]
    rw [hden]
    simp
  calc ((m.num.toNat : ℕ) : ℚ) = (((m.num.toNat : ℕ) : ℤ) : ℚ) := by push_cast; ring
  _ = ((m.num : ℤ) : ℚ) := by rw [h1]
  _ = m := h2

theorem fbitsMag_subnormal (p bias : ℕ) (s : Bool) (mb : ℕ) :
    fbitsMag p bias ⟨s, 0, mb⟩ = (mb : ℚ) * (2 : ℚ) ^ (1 - (bias : ℤ) - (p : ℤ)) := by
  simp [fbitsMag]

theorem fbitsMag_normal (p bias : ℕ) (s : Bool) (eb mb : ℕ) (h : eb ≠ 0) :
    fbitsMag p bias ⟨s, eb, mb⟩
      = ((2 ^ p + mb : ℕ) : ℚ) * (2 : ℚ) ^ ((eb : ℤ) - (bias : ℤ) - (p : ℤ)) := by
  simp [fbitsMag, h]

theorem fbitsVal_of_mag (p bias : ℕ) (q : ℚ) (eb mb : ℕ)
    (h : fbitsMag p bias ⟨decide (q < 0), eb, mb⟩ = |q|) :
    fbitsVal p bias ⟨decide (q < 0), eb, mb⟩ = q := by
  unfold fbitsVal
  dsimp only
  rw [h]
  exact signed_abs q

theorem mkFloatBits_sound (p bias : ℕ) (q : ℚ) (f : FloatBits)
    (h : mkFloatBits p bias q = some f) :
    FloatBits.WF p bias f ∧ fbitsVal p bias f = q := by
  have hA : ((2 ^ p : ℕ) : ℤ) = (2 : ℤ) ^ p := by push_cast; ring
  simp only [mkFloatBits] at h
  split_ifs at h with h0 hsub hguard hnorm hden <;> try exact Option.noConfusion h
  · -- zero
    injection h with h
    subst h
    refine ⟨⟨Nat.zero_le _, by positivity⟩, ?_⟩
    simp [fbitsVal, fbitsMag, h0]
  · -- subnormal
    obtain ⟨hden1, hnum⟩ := hguard
    injection h with h
    subst h
    have hm0 : (0 : ℚ) < |q| * (2 : ℚ) ^ ((bias : ℤ) + (p : ℤ) - 1) := by
      have := abs_pos.2 h0
      positivity
    have hmnum : 0 ≤ (|q| * (2 : ℚ) ^ ((bias : ℤ) + (p : ℤ) - 1)).num :=
      Rat.num_nonneg.2 hm0.le
    refine ⟨⟨Nat.zero_le _, ?_⟩, ?_⟩
    · show (|q| * (2 : ℚ) ^ ((bias : ℤ) + (p : ℤ) - 1)).num.toNat < 2 ^ p
      omega
    · apply fbitsVal_of_mag
      rw [fbitsMag_subnormal, rat_den_one_cast _ hden1 hmnum, mul_assoc, two_zpow_mul,
        show ((bias : ℤ) + (p : ℤ) - 1) + (1 - (bias : ℤ) - (p : ℤ)) = 0 by ring,
        zpow_zero, mul_one]
  · -- normal
    injection h with h
    subst h
    have hqpos : (0 : ℚ) < |q| := abs_pos.2 h0
    have hlow : (2 : ℚ) ^ (Int.log 2 |q|) ≤ |q| := by
      exact_mod_cast Int.zpow_log_le_self one_lt_two hqpos
    have hhigh : |q| < 2 ^ (Int.log 2 |q| + 1) := by
      exact_mod_cast Int.lt_zpow_succ_log_self one_lt_two |q|
    have hmlb : (2 : ℚ) ^ ((p : ℕ) : ℤ)
        ≤ |q| * 2 ^ ((p : ℤ) - Int.log 2 |q|) := by
      calc (2 : ℚ) ^ ((p : ℕ) : ℤ)
          = 2 ^ (Int.log 2 |q|) * 2 ^ ((p : ℤ) - Int.log 2 |q|) := by
            rw [two_zpow_mul]; congr 1; ring
      _ ≤ |q| * 2 ^ ((p : ℤ) - Int.log 2 |q|) :=
            mul_le_mul_of_nonneg_right hlow (two_zpow_pos _).le
    have hmub : |q| * 2 ^ ((p : ℤ) - Int.log 2 |q|) < 2 ^ ((p : ℤ) + 1) := by
      calc |q| * 2 ^ ((p : ℤ) - Int.log 2 |q|)
          < 2 ^ (Int.log 2 |q| + 1) * 2 ^ ((p : ℤ) - Int.log 2 |q|) :=
            mul_lt_mul_of_pos_right hhigh (two_zpow_pos _)
      _ = 2 ^ ((p : ℤ) + 1) := by rw [two_zpow_mul]; congr 1; ring
    have hmnum : 0 ≤ (|q| * 2 ^ ((p : ℤ) - Int.log 2 |q|)).num := by
      apply Rat.num_nonneg.2
      positivity
    have hcast : (((|q| * 2 ^ ((p : ℤ) - Int.log 2 |q|)).num.toNat : ℕ) : ℚ)
        = |q| * 2 ^ ((p : ℤ) - Int.log 2 |q|) := rat_den_one_cast _ hden hmnum
    have hnumlb : ((2 ^ p : ℕ) : ℤ) ≤ (|q| * 2 ^ ((p : ℤ) - Int.log 2 |q|)).num := by
      have hq1 : (((2 ^ p : ℕ) : ℤ) : ℚ)
          ≤ (((|q| * 2 ^ ((p : ℤ) - Int.log 2 |q|)).num : ℤ) : ℚ) := by
        calc (((2 ^ p : ℕ) : ℤ) : ℚ) = (2 : ℚ) ^ ((p : ℕ) : ℤ) := by
              rw [two_zpow_natCast]; push_cast; ring
        _ ≤ |q| * 2 ^ ((p : ℤ) - Int.log 2 |q|) := hmlb
        _ = (((|q| * 2 ^ ((p : ℤ) - Int.log 2 |q|)).num : ℤ) : ℚ) := by
              conv_lhs => rw [← hcast]
              exact_mod_cast Int.toNat_of_nonneg hmnum
      exact_mod_cast hq1
    have hnumub : (|q| * 2 ^ ((p : ℤ) - Int.log 2 |q|)).num < ((2 ^ (p + 1) : ℕ) : ℤ) := by
      have hq1 : (((|q| * 2 ^ ((p : ℤ) - Int.log 2 |q|)).num : ℤ) : ℚ)
          < (((2 ^ (p + 1) : ℕ) : ℤ) : ℚ) := by
        calc (((|q| * 2 ^ ((p : ℤ) - Int.log 2 |q|)).num : ℤ) : ℚ)
            = |q| * 2 ^ ((p : ℤ) - Int.log 2 |q|) := by
              conv_rhs => rw [← hcast]
              exact_mod_cast (Int.toNat_of_nonneg hmnum).symm
        _ < 2 ^ ((p : ℤ) + 1) := hmub
        _ = (((2 ^ (p + 1) : ℕ) : ℤ) : ℚ) := by
              rw [show ((p : ℤ) + 1) = (((p + 1 : ℕ) : ℕ) : ℤ) by push_cast; ring,
                two_zpow_natCast]
              push_cast
              ring
      exact_mod_cast hq1
    have hEnn : 0 ≤ Int.log 2 |q| + (bias : ℤ) := by omega
    have hpow21 : ((2 ^ (p + 1) : ℕ) : ℤ) = 2 * ((2 ^ p : ℕ) : ℤ) := by push_cast; ring
    refine ⟨⟨?_, ?_⟩, ?_⟩
    · show (Int.log 2 |q| + (bias : ℤ)).toNat ≤ 2 * bias
      omega
    · show (|q| * 2 ^ ((p : ℤ) - Int.log 2 |q|)).num.toNat - 2 ^ p < 2 ^ p
      omega
    · apply fbitsVal_of_mag
      have hne : ((Int.log 2 |q| + (bias : ℤ)).toNat : ℕ) ≠ 0 := by omega
      rw [fbitsMag_normal _ _ _ _ _ hne]
      have hsum : 2 ^ p + ((|q| * 2 ^ ((p : ℤ) - Int.log 2 |q|)).num.toNat - 2 ^ p)
          = (|q| * 2 ^ ((p : ℤ) - Int.log 2 |q|)).num.toNat := by omega
      rw [hsum]
      have hE : (((Int.log 2 |q| + (bias : ℤ)).toNat : ℕ) : ℤ) = Int.log 2 |q| + bias :=
        Int.toNat_of_nonneg hEnn
      rw [hE, show Int.log 2 |q| + (bias : ℤ) - (bias : ℤ) - (p : ℤ)
            = Int.log 2 |q| - (p : ℤ) by ring,
        hcast, mul_assoc, two_zpow_mul,
        show ((p : ℤ) - Int.log 2 |q|) + (Int.log 2 |q| - (p : ℤ)) = 0 by ring,
        zpow_zero, mul_one]

theorem mkFloatBits_complete (p bias : ℕ) (q : ℚ) (f : FloatBits)
    (hwf : FloatBits.WF p bias f) (hval : fbitsVal p bias f = q) :
    (mkFloatBits p bias q).isSome = true := by
  obtain ⟨hE, hM⟩ := hwf
  by_cases h0 : q = 0
  · simp [mkFloatBits, h0]
  have habs : fbitsMag p bias f = |q| := by rw [← hval, abs_fbitsVal]
  have hA : ((2 ^ p : ℕ) : ℚ) = (2 : ℚ) ^ ((p : ℕ) : ℤ) := (two_zpow_natCast p).symm
  by_cases hz : f.ebits = 0
  · -- subnormal pattern
    unfold fbitsMag at habs
    rw [if_pos hz] at habs
    have hub : |q| < (2 : ℚ) ^ (1 - (bias : ℤ)) := by
      rw [← habs]
      calc (f.mbits : ℚ) * 2 ^ (1 - (bias : ℤ) - (p : ℤ))
          < ((2 ^ p : ℕ) : ℚ) * 2 ^ (1 - (bias : ℤ) - (p : ℤ)) := by
            apply mul_lt_mul_of_pos_right ?_ (two_zpow_pos _)
            exact_mod_cast hM
      _ = 2 ^ (1 - (bias : ℤ)) := by
            rw [hA, two_zpow_mul]
            congr 1
            ring
    have hlog : Int.log 2 |q| < 1 - (bias : ℤ) := intLog_two_lt _ _ (abs_pos.2 h0) hub
    have hmval : |q| * (2 : ℚ) ^ ((bias : ℤ) + (p : ℤ) - 1) = ((f.mbits : ℕ) : ℚ) := by
      rw [← habs, mul_assoc, two_zpow_mul,
        show (1 - (bias : ℤ) - (p : ℤ)) + ((bias : ℤ) + (p : ℤ) - 1) = 0 by ring,
        zpow_zero, mul_one]
    have hguard : (|q| * (2 : ℚ) ^ ((bias : ℤ) + (p : ℤ) - 1)).den = 1
        ∧ (|q| * (2 : ℚ) ^ ((bias : ℤ) + (p : ℤ) - 1)).num < 2 ^ p := by
      rw [hmval]
      refine ⟨Rat.den_natCast _, ?_⟩
      rw [Rat.num_natCast]
      exact_mod_cast hM
    simp [mkFloatBits, h0, hlog, hguard]
  · -- normal pattern
    unfold fbitsMag at habs
    rw [if_neg hz] at habs
    have h1le : 1 ≤ f.ebits := Nat.one_le_iff_ne_zero.2 hz
    have hSlb : ((2 ^ p : ℕ) : ℚ) ≤ ((2 ^ p + f.mbits : ℕ) : ℚ) := by
      exact_mod_cast Nat.le_add_right _ _
    have hSub : ((2 ^ p + f.mbits : ℕ) : ℚ) < ((2 ^ (p + 1) : ℕ) : ℚ) := by
      have h2 : (2 : ℕ) ^ (p + 1) = 2 * 2 ^ p := by ring
      have : 2 ^ p + f.mbits < 2 ^ (p + 1) := by omega
      exact_mod_cast this
    have hlow : (2 : ℚ) ^ ((f.ebits : ℤ) - bias) ≤ |q| := by
      rw [← habs]
      calc (2 : ℚ) ^ ((f.ebits : ℤ) - (bias : ℤ))
          = ((2 ^ p : ℕ) : ℚ) * 2 ^ ((f.ebits : ℤ) - (bias : ℤ) - (p : ℤ)) := by
            rw [hA, two_zpow_mul]
            congr 1
            ring
      _ ≤ ((2 ^ p + f.mbits : ℕ) : ℚ) * 2 ^ ((f.ebits : ℤ) - (bias : ℤ) - (p : ℤ)) :=
            mul_le_mul_of_nonneg_right hSlb (two_zpow_pos _).le
    have hhigh : |q| < (2 : ℚ) ^ ((f.ebits : ℤ) - bias + 1) := by
      rw [← habs]
      calc ((2 ^ p + f.mbits : ℕ) : ℚ) * 2 ^ ((f.ebits : ℤ) - (bias : ℤ) - (p : ℤ))
          < ((2 ^ (p + 1) : ℕ) : ℚ) * 2 ^ ((f.ebits : ℤ) - (bias : ℤ) - (p : ℤ)) :=
            mul_lt_mul_of_pos_right hSub (two_zpow_pos _)
      _ = 2 ^ ((f.ebits : ℤ) - (bias : ℤ) + 1) := by
            rw [← two_zpow_natCast, two_zpow_mul]
            congr 1
            push_cast
            ring
    have hlog : Int.log 2 |q| = (f.ebits : ℤ) - bias := intLog_two_eq _ _ hlow hhigh
    have hc1 : ¬(Int.log 2 |q| < 1 - (bias : ℤ)) := by
      rw [hlog]
      omega
    have hc2 : Int.log 2 |q| ≤ (bias : ℤ) := by
      rw [hlog]
      omega
    have hden : (|q| * (2 : ℚ) ^ ((p : ℤ) - Int.log 2 |q|)).den = 1 := by
      have hmval : |q| * (2 : ℚ) ^ ((p : ℤ) - Int.log 2 |q|)
          = ((2 ^ p + f.mbits : ℕ) : ℚ) := by
        rw [hlog, ← habs, mul_assoc, two_zpow_mul,
          show ((f.ebits : ℤ) - (bias : ℤ) - (p : ℤ))
              + ((p : ℤ) - ((f.ebits : ℤ) - (bias : ℤ))) = 0 by ring,
          zpow_zero, mul_one]
      rw [hmval]
      exact Rat.den_natCast _
    simp [mkFloatBits, h0, hc1, hc2, hden]

theorem rat_num_cast_den_one (m : ℚ) (hden : m.den = 1) : ((m.num : ℤ) : ℚ) = m := by
  conv_rhs => rw [← Rat.num_div_den m]
  rw [hden]
  simp

theorem roundHalfEven_den_one (x : ℚ) (hden : x.den = 1) : roundHalfEven x = x.num := by
  have hx : ((x.num : ℤ) : ℚ) = x := rat_num_cast_den_one x hden
  have hfl : ⌊x⌋ = x.num := by
    rw [← hx]
    exact Int.floor_intCast _
  unfold roundHalfEven
  rw [hfl, show x - ((x.num : ℤ) : ℚ) = 0 from by rw [hx]; ring]
  norm_num

theorem roundFloatBits_mbits_lt (p bias : ℕ) (q : ℚ) :
    (roundFloatBits p bias q).mbits < 2 ^ p := by
  have hA : ((2 ^ p : ℕ) : ℤ) = (2 : ℤ) ^ p := by push_cast; ring
  have hA1 : (2 : ℤ) ^ (p + 1) = 2 * (2 : ℤ) ^ p := by ring
  have h2p : 0 < (2 : ℕ) ^ p := by positivity
  simp only [roundFloatBits]
  split_ifs <;> dsimp only <;> omega

theorem roundFloatBits_exact (p bias : ℕ) (q : ℚ) (f : FloatBits)
    (h : mkFloatBits p bias q = some f) : roundFloatBits p bias q = f := by
  have hA1 : ((2 ^ (p + 1) : ℕ) : ℤ) = (2 : ℤ) ^ (p + 1) := by push_cast; ring
  simp only [mkFloatBits] at h
  split_ifs at h with h0 hsub hguard hnorm hden <;> try exact Option.noConfusion h
  · -- zero
    injection h with h
    subst h
    simp [roundFloatBits, h0]
  · -- subnormal
    obtain ⟨hden1, hnum⟩ := hguard
    injection h with h
    subst h
    simp only [roundFloatBits]
    rw [if_neg h0, if_pos hsub, roundHalfEven_den_one _ hden1, if_pos hnum]
  · -- normal
    injection h with h
    subst h
    have hqpos : (0 : ℚ) < |q| := abs_pos.2 h0
    have hhigh : |q| < 2 ^ (Int.log 2 |q| + 1) := by
      exact_mod_cast Int.lt_zpow_succ_log_self one_lt_two |q|
    have hmub : |q| * 2 ^ ((p : ℤ) - Int.log 2 |q|) < 2 ^ ((p : ℤ) + 1) := by
      calc |q| * 2 ^ ((p : ℤ) - Int.log 2 |q|)
          < 2 ^ (Int.log 2 |q| + 1) * 2 ^ ((p : ℤ) - Int.log 2 |q|) :=
            mul_lt_mul_of_pos_right hhigh (two_zpow_pos _)
      _ = 2 ^ ((p : ℤ) + 1) := by rw [two_zpow_mul]; congr 1; ring
    have hmnum : 0 ≤ (|q| * 2 ^ ((p : ℤ) - Int.log 2 |q|)).num := by
      apply Rat.num_nonneg.2
      positivity
    have hnumub : (|q| * 2 ^ ((p : ℤ) - Int.log 2 |q|)).num < ((2 ^ (p + 1) : ℕ) : ℤ) := by
      have hq1 : (((|q| * 2 ^ ((p : ℤ) - Int.log 2 |q|)).num : ℤ) : ℚ)
          < (((2 ^ (p + 1) : ℕ) : ℤ) : ℚ) := by
        calc (((|q| * 2 ^ ((p : ℤ) - Int.log 2 |q|)).num : ℤ) : ℚ)
            = |q| * 2 ^ ((p : ℤ) - Int.log 2 |q|) := rat_num_cast_den_one _ hden
        _ < 2 ^ ((p : ℤ) + 1) := hmub
        _ = (((2 ^ (p + 1) : ℕ) : ℤ) : ℚ) := by
              rw [show ((p : ℤ) + 1) = (((p + 1 : ℕ) : ℕ) : ℤ) by push_cast; ring,
                two_zpow_natCast]
              push_cast
              ring
      exact_mod_cast hq1
    simp only [roundFloatBits]
    rw [if_neg h0, if_neg hsub, if_pos hnorm, roundHalfEven_den_one _ hden,
      if_pos (by omega)]

theorem no_f32_has_pointOne_val (f : FloatBits) (hwf : FloatBits.WF 23 127 f) :
    fbitsVal 23 127 f ≠ jsPointOne := by
  intro hval
  have hpos : (0 : ℚ) < jsPointOne := by norm_num [jsPointOne]
  have habs : fbitsMag 23 127 f = jsPointOne := by
    rw [← abs_fbitsVal, hval]
    exact abs_of_pos hpos
  obtain ⟨c, k, hc, hk, heq⟩ :
      ∃ (c : ℕ) (k : ℤ), c < 2 ^ 24 ∧ -149 ≤ k ∧ ((c : ℕ) : ℚ) * (2 : ℚ) ^ k = jsPointOne := by
    by_cases hz : f.ebits = 0
    · refine ⟨f.mbits, 1 - 127 - 23, lt_trans hwf.2 (by norm_num), by norm_num, ?_⟩
      rw [← habs]
      unfold fbitsMag
      rw [if_pos hz]
      norm_num
    · have h1le : 1 ≤ f.ebits := Nat.one_le_iff_ne_zero.2 hz
      refine ⟨2 ^ 23 + f.mbits, (f.ebits : ℤ) - 150, ?_, by omega, ?_⟩
      · have h24 : (2 : ℕ) ^ 24 = 2 * 2 ^ 23 := by norm_num
        have := hwf.2
        omega
      · rw [← habs]
        unfold fbitsMag
        rw [if_neg hz]
        congr 1
        push_cast
        ring
  have h149 : ((c : ℕ) : ℚ) * (2 : ℚ) ^ (k + 149) = ((3602879701896397 * 2 ^ 94 : ℕ) : ℚ) := by
    have h1 : ((c : ℕ) : ℚ) * (2 : ℚ) ^ k * (2 : ℚ) ^ (149 : ℤ)
        = jsPointOne * (2 : ℚ) ^ (149 : ℤ) := by rw [heq]
    rw [mul_assoc, two_zpow_mul] at h1
    rw [h1]
    norm_num [jsPointOne]
  have hj : k + 149 = (((k + 149).toNat : ℕ) : ℤ) := (Int.toNat_of_nonneg (by omega)).symm
  have hnat : c * 2 ^ (k + 149).toNat = 3602879701896397 * 2 ^ 94 := by
    have h2 : ((c : ℕ) : ℚ) * ((2 ^ (k + 149).toNat : ℕ) : ℚ)
        = ((3602879701896397 * 2 ^ 94 : ℕ) : ℚ) := by
      rw [← two_zpow_natCast, ← hj]
      exact h149
    exact_mod_cast h2
  have hco : Nat.Coprime 3602879701896397 (2 ^ (k + 149).toNat) :=
    Nat.Coprime.pow_right _ (by decide)
  have hdvd : 3602879701896397 ∣ c * 2 ^ (k + 149).toNat := hnat ▸ dvd_mul_right _ _
  have hdc : 3602879701896397 ∣ c := hco.dvd_of_dvd_mul_right hdvd
  have hc0 : c ≠ 0 := by
    intro h
    rw [h] at hnat
    norm_num at hnat
  have hle := Nat.le_of_dvd (Nat.pos_of_ne_zero hc0) hdc
  have h24 : (2 : ℕ) ^ 24 = 16777216 := by norm_num
  omega

/-- C5: isFloatPrecision returns true exactly for the values that survive the
Float32Array round trip bit-identically (the exact values of well-formed
binary32 patterns); in particular it accepts 1.5 and rejects the binary64
value of the literal 0.1. -/
theorem isFloatPrecision_contract :
    (∀ q : ℚ, isFloatPrecision q = true
      ↔ ∃ f : FloatBits, FloatBits.WF 23 127 f ∧ fbitsVal 23 127 f = q)
    ∧ isFloatPrecision ((3 : ℚ) / 2) = true
    ∧ isFloatPrecision jsPointOne = false := by
  have hiff : ∀ q : ℚ, isFloatPrecision q = true
      ↔ ∃ f : FloatBits, FloatBits.WF 23 127 f ∧ fbitsVal 23 127 f = q := by
    intro q
    constructor
    · intro h
      unfold isFloatPrecision at h
      split_ifs at h with he
      rw [decide_eq_true_eq] at h
      exact ⟨roundFloatBits 23 127 q,
        ⟨he, roundFloatBits_mbits_lt 23 127 q⟩, h⟩
    · rintro ⟨f, hwf, hval⟩
      obtain ⟨g, hg⟩ := Option.isSome_iff_exists.1 (mkFloatBits_complete 23 127 q f hwf hval)
      obtain ⟨hwfg, hvalg⟩ := mkFloatBits_sound 23 127 q g hg
      have hround := roundFloatBits_exact 23 127 q g hg
      unfold isFloatPrecision
      rw [hround, if_pos hwfg.1]
      simp [hvalg]
  refine ⟨hiff, ?_, ?_⟩
  · rw [hiff]
    refine ⟨⟨false, 127, 2 ^ 22⟩, by decide, ?_⟩
    norm_num [fbitsVal, fbitsMag]
  · by_contra h
    rw [Bool.not_eq_false] at h
    obtain ⟨f, hwf, hval⟩ := (hiff jsPointOne).1 h
    exact no_f32_has_pointOne_val f hwf hval

theorem den_three_halves : ((3 : ℚ) / 2).den ≠ 1 := by
  intro h
  have hint : ((((3 : ℚ) / 2).num : ℤ) : ℚ) = (3 : ℚ) / 2 := by
    conv_rhs => rw [← Rat.num_div_den ((3 : ℚ) / 2)]
    rw [h]
    simp
  have h2 : ((((3 : ℚ) / 2).num : ℤ) : ℚ) * 2 = 3 := by
    rw [hint]
    ring
  have h3 : ((3 : ℚ) / 2).num * 2 = 3 := by exact_mod_cast h2
  omega

/-- C7: on a finite non-integer number, encodeType emits the real tag byte
whose high nibble is 2 and whose low nibble is 2 (4-byte) exactly when the
value fits a 32-bit float losslessly and 3 (8-byte) otherwise, followed by the
big-endian IEEE-754 bytes of the value at that width. -/
theorem encodeType_real_encoding (q : ℚ) (hq : IsJSNumber q) (hd : q.den ≠ 1) :
    encodeType (JSValue.num q)
      = Except.ok ((if isFloatPrecision q then 34 else 35)
          :: (if isFloatPrecision q
              then natToBytesBE (f32word (roundFloatBits 23 127 q)) 4
              else natToBytesBE (f64word (roundFloatBits 52 1023 q)) 8))
    ∧ (if isFloatPrecision q then 34 else 35) / 16 = 2
    ∧ (if isFloatPrecision q then 34 else 35) % 16 = (if isFloatPrecision q then 2 else 3)
    ∧ (if isFloatPrecision q
        then ∃ f, FloatBits.WF 23 127 f ∧ fbitsVal 23 127 f = q
          ∧ encodeFloatStruct q 4 = Except.ok (natToBytesBE (f32word f) 4)
          ∧ (natToBytesBE (f32word f) 4).length = 4
        else ∃ f, FloatBits.WF 52 1023 f ∧ fbitsVal 52 1023 f = q
          ∧ encodeFloatStruct q 8 = Except.ok (natToBytesBE (f64word f) 8)
          ∧ (natToBytesBE (f64word f) 8).length = 8) := by
  cases hfp : isFloatPrecision q with
  | true =>
    have hval : fbitsVal 23 127 (roundFloatBits 23 127 q) = q := by
      have h := hfp
      unfold isFloatPrecision at h
      split_ifs at h with he
      exact of_decide_eq_true h
    have hwf : FloatBits.WF 23 127 (roundFloatBits 23 127 q) := by
      have h := hfp
      unfold isFloatPrecision at h
      split_ifs at h with he
      exact ⟨he, roundFloatBits_mbits_lt 23 127 q⟩
    have ht : encodeTypeInfoStruct 0x2 ((jsRoundSqrt 3 : ℕ) : ℤ) = Except.ok 34 := by decide
    have hfe : encodeFloatStruct q 4
        = Except.ok (natToBytesBE (f32word (roundFloatBits 23 127 q)) 4) := by
      simp [encodeFloatStruct]
    refine ⟨?_, by norm_num, by norm_num, ?_⟩
    · simp [encodeType, hd, hfp, ht, hfe]
    · rw [if_pos rfl]
      exact ⟨roundFloatBits 23 127 q, hwf, hval, hfe, natToBytesBE_length _ _⟩
  | false =>
    obtain ⟨f0, hwf0, hval0⟩ := hq
    obtain ⟨g, hg⟩ : ∃ g, mkFloatBits 52 1023 q = some g :=
      Option.isSome_iff_exists.1 (mkFloatBits_complete 52 1023 q f0 hwf0 hval0)
    obtain ⟨hwf, hval⟩ := mkFloatBits_sound 52 1023 q g hg
    have hround := roundFloatBits_exact 52 1023 q g hg
    have ht : encodeTypeInfoStruct 0x2 ((jsRoundSqrt 7 : ℕ) : ℤ) = Except.ok 35 := by decide
    have hfe : encodeFloatStruct q 8
        = Except.ok (natToBytesBE (f64word (roundFloatBits 52 1023 q)) 8) := by
      simp [encodeFloatStruct]
    refine ⟨?_, by norm_num, by norm_num, ?_⟩
    · simp [encodeType, hd, hfp, ht, hfe]
    · rw [if_neg (by decide)]
      refine ⟨g, hwf, hval, ?_, natToBytesBE_length _ _⟩
      rw [hfe, hround]

/-- C7 witness: the real 1.5 fits a 32-bit float, so encodeType emits tag byte
0x22 followed by the 4-byte big-endian IEEE-754 encoding of 1.5. -/
theorem encodeType_real_encoding_witness :
    encodeType (JSValue.num ((3 : ℚ) / 2))
      = Except.ok ((if isFloatPrecision ((3 : ℚ) / 2) then 34 else 35)
          :: (if isFloatPrecision ((3 : ℚ) / 2)
              then natToBytesBE (f32word (roundFloatBits 23 127 ((3 : ℚ) / 2))) 4
              else natToBytesBE (f64word (roundFloatBits 52 1023 ((3 : ℚ) / 2))) 8))
    ∧ (if isFloatPrecision ((3 : ℚ) / 2) then 34 else 35) / 16 = 2
    ∧ (if isFloatPrecision ((3 : ℚ) / 2) then 34 else 35) % 16
        = (if isFloatPrecision ((3 : ℚ) / 2) then 2 else 3)
    ∧ (if isFloatPrecision ((3 : ℚ) / 2)
        then ∃ f, FloatBits.WF 23 127 f ∧ fbitsVal 23 127 f = (3 : ℚ) / 2
          ∧ encodeFloatStruct ((3 : ℚ) / 2) 4 = Except.ok (natToBytesBE (f32word f) 4)
          ∧ (natToBytesBE (f32word f) 4).length = 4
        else ∃ f, FloatBits.WF 52 1023 f ∧ fbitsVal 52 1023 f = (3 : ℚ) / 2
          ∧ encodeFloatStruct ((3 : ℚ) / 2) 8 = Except.ok (natToBytesBE (f64word f) 8)
          ∧ (natToBytesBE (f64word f) 8).length = 8) :=
  encodeType_real_encoding ((3 : ℚ) / 2)
    ⟨⟨false, 1023, 2 ^ 51⟩, by decide, by norm_num [fbitsVal, fbitsMag]⟩
    den_three_halves

